import Mathlib

/-!
Shallow embedding of the `perform_heavy_computation` kernel variants of the
repository (files `src/data/patched_variants/variant_{1,2,3}/heavy_computation.cpp`
and `src/data/sources/patched_variants/variant_{1,2,3}/heavy_computation.cpp`),
over exact rational arithmetic, together with theorems settling the frozen
claims about the kernel evaluation and accumulation contract.

The C++ accumulators are `double`; we model them as `ℚ` (the spec reasons in
real arithmetic).  The C++ `static_cast<int>` applied to a `double` truncates
toward zero; it is modelled by `truncQ`, and `truncQ_eq_floor_ceil` relates it
to the mathematical floor and ceiling.  The C++ test `x % 100000 == 0` holds
exactly when `100000` divides `x`, which agrees with Lean's `%` on `ℤ`
compared with `0`.
-/

namespace HeavyComputation

/-- Truncation toward zero of a rational number, modelling the C++
`static_cast<int>` applied to the `double` accumulator: the quotient of
numerator by denominator rounded toward zero. -/
def truncQ (a : ℚ) : ℤ := a.num.tdiv a.den

/-- The correction step shared by the kernel variants
(`if (static_cast<int>(result) % 100000 == 0) result -= 5.0;`),
e.g. `patched_variants/variant_1/heavy_computation.cpp` lines 20-22. -/
def correct (a : ℚ) : ℚ := if truncQ a % 100000 = 0 then a - 5 else a

/-- `base_val = static_cast<double>(i * j) / divisor` with
`divisor = size + 1.0` (`patched_variants/variant_1` lines 8 and 12). -/
def base (i j size : ℕ) : ℚ := ((i * j : ℕ) : ℚ) / ((size : ℚ) + 1)

/-- The materialized inner loop of `patched_variants/variant_1` lines 14-17:
`inner_sum = 0; for (k = 0; k < 100; ++k) inner_sum += base_val * k;`. -/
def innerSum (i j size : ℕ) : ℚ :=
  (List.range 100).foldl (fun (s : ℚ) (k : ℕ) => s + base i j size * (k : ℚ)) 0

/-- The outer iteration domain: pairs `(i, j)` with `i, j ∈ [0, size)`,
in the lexicographic order of the two nested `for` loops. -/
def pairs (size : ℕ) : List (ℕ × ℕ) :=
  (List.range size).flatMap (fun i => (List.range size).map (fun j => (i, j)))

/-- One outer-pair step of `patched_variants/variant_1` (lines 12-22):
add the materialized `inner_sum`, then apply the correction check once. -/
def stepV1 (size : ℕ) (r : ℚ) (p : ℕ × ℕ) : ℚ :=
  correct (r + innerSum p.1 p.2 size)

/-- `perform_heavy_computation` of `patched_variants/variant_1`
(per-pair correction scope, materialized inner loop). -/
def evalV1 (size : ℕ) : ℚ := (pairs size).foldl (stepV1 size) 0

/-- One outer-pair step of `patched_variants/variant_3` (lines 14-19):
add `base_val * k_sum` with `k_sum = 4950`, then apply the correction check. -/
def stepV3 (size : ℕ) (r : ℚ) (p : ℕ × ℕ) : ℚ :=
  correct (r + base p.1 p.2 size * 4950)

/-- `perform_heavy_computation` of `patched_variants/variant_3`
(per-pair correction scope, closed-form inner sum). -/
def evalV3 (size : ℕ) : ℚ := (pairs size).foldl (stepV3 size) 0

/-- `patched_variants/variant_1` at an `int` domain size: for `size ≤ 0` each
loop `for (i = 0; i < size; ++i)` runs zero iterations, which is the same as
running the `ℕ`-indexed model at `size.toNat`. -/
def evalV1Z (size : ℤ) : ℚ := evalV1 size.toNat

/-- `patched_variants/variant_3` at an `int` domain size. -/
def evalV3Z (size : ℤ) : ℚ := evalV3 size.toNat

/-- One outer-pair step of `sources/patched_variants/variant_1` (lines 11-17):
the correction check is applied after every one of the 100 `k` iterations
(per-subiteration scope). -/
def stepSub (size : ℕ) (r : ℚ) (p : ℕ × ℕ) : ℚ :=
  (List.range 100).foldl (fun (a : ℚ) (k : ℕ) => correct (a + base p.1 p.2 size * (k : ℚ))) r

/-- `perform_heavy_computation` of `sources/patched_variants/variant_1`
(per-subiteration correction scope). -/
def evalSub (size : ℕ) : ℚ := (pairs size).foldl (stepSub size) 0

/-- One `k` iteration of `sources/patched_variants/variant_3` (lines 13-19):
`result += ijProduct * k / sizePlusOne;` and, only at `k == 99`, the check on
`result` whose correction is accumulated into the separate `correctionFactor`
(the second state component). -/
def stepSrc3K (size i j : ℕ) (s : ℚ × ℚ) (k : ℕ) : ℚ × ℚ :=
  let r := s.1 + ((i * j : ℕ) : ℚ) * (k : ℚ) / ((size : ℚ) + 1)
  if k = 99 ∧ truncQ r % 100000 = 0 then (r, s.2 - 5) else (r, s.2)

/-- One outer pair of `sources/patched_variants/variant_3`: the 100 `k`
iterations threaded through the `(result, correctionFactor)` state. -/
def stepSrc3 (size : ℕ) (s : ℚ × ℚ) (p : ℕ × ℕ) : ℚ × ℚ :=
  (List.range 100).foldl (stepSrc3K size p.1 p.2) s

/-- The final `(result, correctionFactor)` state of
`sources/patched_variants/variant_3` after all outer pairs. -/
def srcV3state (size : ℕ) : ℚ × ℚ := (pairs size).foldl (stepSrc3 size) (0, 0)

/-- `perform_heavy_computation` of `sources/patched_variants/variant_3`:
`result += correctionFactor; return result;` (lines 22-23). -/
def srcV3eval (size : ℕ) : ℚ := (srcV3state size).1 + (srcV3state size).2

/-- The uncorrected total `Σ base(i,j) * 4950` over all outer pairs. -/
def rawTotal (size : ℕ) : ℚ := ((pairs size).map (fun p => base p.1 p.2 size * 4950)).sum

/-- One unit of the data-parallel variant `sources/patched_variants/variant_2`
(lines 9-19): from the flattened index recover `i = idx / (size*100)`,
`j = (idx % (size*100)) / 100`, `k = idx % 100`, compute
`tempResult = (i*j*k)/(size+1.0)`, and apply the correction to the unit's own
value in isolation. -/
def flatUnit (size idx : ℕ) : ℚ :=
  let i := idx / (size * 100)
  let j := (idx % (size * 100)) / 100
  let k := idx % 100
  let temp : ℚ := ((i * j * k : ℕ) : ℚ) / ((size : ℚ) + 1)
  if truncQ temp % 100000 = 0 then temp - 5 else temp

/-- `perform_heavy_computation` of `sources/patched_variants/variant_2`: fill
the vector of `size*size*100` independent unit values, then sum them. -/
def evalFlat (size : ℕ) : ℚ := ((List.range (size * size * 100)).map (flatUnit size)).sum

/-- The unit value of the data-parallel variant at explicit coordinates
`(i, j, k)`: `(i*j*k)/(size+1)` with the per-unit correction. -/
def unitVal (i j k size : ℕ) : ℚ :=
  let temp : ℚ := ((i * j * k : ℕ) : ℚ) / ((size : ℚ) + 1)
  if truncQ temp % 100000 = 0 then temp - 5 else temp

/-- The pairs of one worker of `patched_variants/variant_2` (lines 17-31):
`i` ranges over the partition `[s, e)` and `j` over `[0, size)`. -/
def workerPairs (size s e : ℕ) : List (ℕ × ℕ) :=
  (List.range' s (e - s)).flatMap (fun i => (List.range size).map (fun j => (i, j)))

/-- The local accumulator of one worker of `patched_variants/variant_2`:
the same per-pair materialized-loop-and-check step as `variant_1`, started
from `0.0`, over the worker's own pairs. -/
def workerLocal (size s e : ℕ) : ℚ := (workerPairs size s e).foldl (stepV1 size) 0

/-- The partition loop of `patched_variants/variant_2` (lines 38-45):
`chunk = size / W`, `rem = size % W`, and thread `t` receives
`[start, start + chunk + (t < rem ? 1 : 0))`; `n` counts the remaining
threads. -/
def partsFrom (chunk rem : ℕ) : ℕ → ℕ → ℕ → List (ℕ × ℕ)
  | _, _, 0 => []
  | start, t, n + 1 =>
      let e := start + chunk + (if t < rem then 1 else 0)
      (start, e) :: partsFrom chunk rem e (t + 1) n

/-- The `W` partitions of `[0, size)` generated by `patched_variants/variant_2`. -/
def partitions (size W : ℕ) : List (ℕ × ℕ) := partsFrom (size / W) (size % W) 0 0 W

/-- Closed form of the partition boundaries: thread `t` starts at
`t * (size / W) + min t (size % W)`. -/
def pstart (size W t : ℕ) : ℕ := t * (size / W) + min t (size % W)

/-- The merged result of `patched_variants/variant_2` for worker count `W ≥ 1`:
the sum of the finalized worker-local results (the atomic compare-exchange
merge adds each exactly once). -/
def evalV2core (size W : ℕ) : ℚ :=
  ((partitions size W).map (fun p => workerLocal size p.1 p.2)).sum

/-- `perform_heavy_computation` of `patched_variants/variant_2` with the
worker count `W` reported by `std::thread::hardware_concurrency()` made
explicit, and with explicit fuel for the self-recursion of lines 11-15:
when `W == 0` the function calls itself with the same arguments. -/
def evalV2fuel : ℕ → ℕ → ℕ → Option ℚ
  | 0, _, _ => none
  | fuel + 1, size, W => if W = 0 then evalV2fuel fuel size W else some (evalV2core size W)

unseal Rat.add Rat.mul Rat.sub Rat.inv

set_option maxRecDepth 40000

/- ### Bridge from truncation to floor and ceiling -/

/-- `truncQ` is the floor for nonnegative arguments and the ceiling for
negative ones (truncation toward zero). -/
theorem truncQ_eq_floor_ceil (a : ℚ) : truncQ a = if 0 ≤ a then ⌊a⌋ else ⌈a⌉ := by
  rw [truncQ]
  split
  · next h =>
    rw [Rat.floor_def]
    exact Int.tdiv_eq_ediv (Rat.num_nonneg.2 h) (Int.natCast_nonneg _)
  · next h =>
    have hc : (⌈a⌉ : ℤ) = -⌊-a⌋ := by rw [← Int.ceil_neg, neg_neg]
    have h1 : (0 : ℤ) ≤ -a.num := by
      rw [← Rat.neg_num]
      exact Rat.num_nonneg.2 (by linarith [not_le.1 h])
    rw [hc, Rat.floor_def, Rat.neg_num, Rat.neg_den,
      ← Int.tdiv_eq_ediv h1 (Int.natCast_nonneg _), Int.neg_tdiv, neg_neg]

/- ### Generic facts about the folds -/

theorem foldl_add_mul (c : ℚ) (l : List ℕ) : ∀ (s : ℚ),
    l.foldl (fun (a : ℚ) (k : ℕ) => a + c * (k : ℚ)) s
      = s + c * (l.map (fun k : ℕ => (k : ℚ))).sum := by
  induction l with
  | nil => intro s; simp
  | cons k t ih => intro s; rw [List.foldl_cons, ih, List.map_cons, List.sum_cons]; ring

theorem range100_sum : ((List.range 100).map (fun k : ℕ => (k : ℚ))).sum = 4950 := by
  have h : (((List.range 100).sum : ℕ) : ℚ) = ((List.range 100).map (fun k : ℕ => (k : ℚ))).sum :=
    Nat.cast_list_sum (List.range 100)
  rw [← h, show (List.range 100).sum = 4950 by decide]
  norm_num

/-- The materialized inner loop equals the closed form `base * 4950`,
for every domain size (exact rational arithmetic). -/
theorem innerSum_eq_closed (i j size : ℕ) : innerSum i j size = base i j size * 4950 := by
  rw [innerSum, foldl_add_mul, range100_sum, zero_add]

/-- The materialized-loop variant and the closed-form variant coincide. -/
theorem evalV1_eq_evalV3 (size : ℕ) : evalV1 size = evalV3 size := by
  have h : stepV1 size = stepV3 size := by
    funext r p
    rw [stepV1, stepV3, innerSum_eq_closed]
  rw [evalV1, evalV3, h]

/- ### Concrete evaluations -/

theorem pairs_two : pairs 2 = [(0, 0), (0, 1), (1, 0), (1, 1)] := by decide

theorem pairs_five : pairs 5 =
    [(0, 0), (0, 1), (0, 2), (0, 3), (0, 4),
     (1, 0), (1, 1), (1, 2), (1, 3), (1, 4),
     (2, 0), (2, 1), (2, 2), (2, 3), (2, 4),
     (3, 0), (3, 1), (3, 2), (3, 3), (3, 4),
     (4, 0), (4, 1), (4, 2), (4, 3), (4, 4)] := by decide

theorem evalV3_two : evalV3 2 = 1645 := by decide

theorem evalV1_two : evalV1 2 = 1645 := by rw [evalV1_eq_evalV3]; exact evalV3_two

theorem evalV3_five : evalV3 5 = 82495 := by decide

theorem stepSub5_00 : stepSub 5 0 (0, 0) = -5 := by decide

theorem stepSub5_01 : stepSub 5 (-5) (0, 1) = -5 := by decide

theorem stepSub5_02 : stepSub 5 (-5) (0, 2) = -5 := by decide

theorem stepSub5_03 : stepSub 5 (-5) (0, 3) = -5 := by decide

theorem stepSub5_04 : stepSub 5 (-5) (0, 4) = -5 := by decide

theorem stepSub5_10 : stepSub 5 (-5) (1, 0) = -5 := by decide

theorem stepSub5_11 : stepSub 5 (-5) (1, 1) = 795 := by decide

theorem stepSub5_12 : stepSub 5 795 (1, 2) = 2445 := by decide

theorem stepSub5_13 : stepSub 5 2445 (1, 3) = 4920 := by decide

theorem stepSub5_14 : stepSub 5 4920 (1, 4) = 8220 := by decide

theorem stepSub5_20 : stepSub 5 8220 (2, 0) = 8220 := by decide

theorem stepSub5_21 : stepSub 5 8220 (2, 1) = 9870 := by decide

theorem stepSub5_22 : stepSub 5 9870 (2, 2) = 13170 := by decide

theorem stepSub5_23 : stepSub 5 13170 (2, 3) = 18120 := by decide

theorem stepSub5_24 : stepSub 5 18120 (2, 4) = 24720 := by decide

theorem stepSub5_30 : stepSub 5 24720 (3, 0) = 24720 := by decide

theorem stepSub5_31 : stepSub 5 24720 (3, 1) = 27195 := by decide

theorem stepSub5_32 : stepSub 5 27195 (3, 2) = 32145 := by decide

theorem stepSub5_33 : stepSub 5 32145 (3, 3) = 39570 := by decide

theorem stepSub5_34 : stepSub 5 39570 (3, 4) = 49470 := by decide

theorem stepSub5_40 : stepSub 5 49470 (4, 0) = 49470 := by decide

theorem stepSub5_41 : stepSub 5 49470 (4, 1) = 52770 := by decide

theorem stepSub5_42 : stepSub 5 52770 (4, 2) = 59370 := by decide

theorem stepSub5_43 : stepSub 5 59370 (4, 3) = 69270 := by decide

theorem stepSub5_44 : stepSub 5 69270 (4, 4) = 82470 := by decide

/-- Peel one element off a left fold once the step value is known. -/
theorem foldl_step {α β : Type} (f : β → α → β) (s v : β) (p : α) (l : List α)
    (h : f s p = v) : (p :: l).foldl f s = l.foldl f v := by
  rw [List.foldl_cons, h]

/-- The per-subiteration variant at `size = 5`, evaluated one outer pair at a
time (the mid-pair corrections at `(1, 1)` make it differ from the per-pair
total `82495`). -/
theorem evalSub_five : evalSub 5 = 82470 := by
  rw [evalSub, pairs_five,
    foldl_step _ _ _ _ _ stepSub5_00,
    foldl_step _ _ _ _ _ stepSub5_01,
    foldl_step _ _ _ _ _ stepSub5_02,
    foldl_step _ _ _ _ _ stepSub5_03,
    foldl_step _ _ _ _ _ stepSub5_04,
    foldl_step _ _ _ _ _ stepSub5_10,
    foldl_step _ _ _ _ _ stepSub5_11,
    foldl_step _ _ _ _ _ stepSub5_12,
    foldl_step _ _ _ _ _ stepSub5_13,
    foldl_step _ _ _ _ _ stepSub5_14,
    foldl_step _ _ _ _ _ stepSub5_20,
    foldl_step _ _ _ _ _ stepSub5_21,
    foldl_step _ _ _ _ _ stepSub5_22,
    foldl_step _ _ _ _ _ stepSub5_23,
    foldl_step _ _ _ _ _ stepSub5_24,
    foldl_step _ _ _ _ _ stepSub5_30,
    foldl_step _ _ _ _ _ stepSub5_31,
    foldl_step _ _ _ _ _ stepSub5_32,
    foldl_step _ _ _ _ _ stepSub5_33,
    foldl_step _ _ _ _ _ stepSub5_34,
    foldl_step _ _ _ _ _ stepSub5_40,
    foldl_step _ _ _ _ _ stepSub5_41,
    foldl_step _ _ _ _ _ stepSub5_42,
    foldl_step _ _ _ _ _ stepSub5_43,
    foldl_step _ _ _ _ _ stepSub5_44]
  rfl

theorem stepSrc3_00 : stepSrc3 2 (0, 0) (0, 0) = (0, -5) := by decide

theorem stepSrc3_01 : stepSrc3 2 (0, -5) (0, 1) = (0, -10) := by decide

theorem stepSrc3_10 : stepSrc3 2 (0, -10) (1, 0) = (0, -15) := by decide

theorem stepSrc3_11 : stepSrc3 2 (0, -15) (1, 1) = (1650, -15) := by decide

/-- The final `(result, correctionFactor)` state of `sources/variant_3` at
`size = 2`: the checked accumulator ends at the raw total `1650`, untouched
by the three corrections collected in `correctionFactor = -15`. -/
theorem srcV3state_two : srcV3state 2 = (1650, -15) := by
  rw [srcV3state, pairs_two,
    foldl_step _ _ _ _ _ stepSrc3_00,
    foldl_step _ _ _ _ _ stepSrc3_01,
    foldl_step _ _ _ _ _ stepSrc3_10,
    foldl_step _ _ _ _ _ stepSrc3_11]
  rfl

/- ### The checked accumulator of sources/variant_3 never sees corrections -/

theorem stepSrc3K_fst (size i j : ℕ) (s : ℚ × ℚ) (k : ℕ) :
    (stepSrc3K size i j s k).1 = s.1 + ((i * j : ℕ) : ℚ) * (k : ℚ) / ((size : ℚ) + 1) := by
  simp only [stepSrc3K]
  split <;> rfl

theorem foldSrc_fst (size i j : ℕ) (l : List ℕ) : ∀ (s : ℚ × ℚ),
    (l.foldl (stepSrc3K size i j) s).1
      = s.1 + ((i * j : ℕ) : ℚ) / ((size : ℚ) + 1) * (l.map (fun k : ℕ => (k : ℚ))).sum := by
  induction l with
  | nil => intro s; simp
  | cons k t ih =>
    intro s
    rw [List.foldl_cons, ih, stepSrc3K_fst, List.map_cons, List.sum_cons]
    ring

theorem stepSrc3_fst (size : ℕ) (s : ℚ × ℚ) (p : ℕ × ℕ) :
    (stepSrc3 size s p).1 = s.1 + base p.1 p.2 size * 4950 := by
  rw [stepSrc3, foldSrc_fst, range100_sum, base]

theorem foldPairs_fst (size : ℕ) (l : List (ℕ × ℕ)) : ∀ (s : ℚ × ℚ),
    (l.foldl (stepSrc3 size) s).1 = s.1 + (l.map (fun p => base p.1 p.2 size * 4950)).sum := by
  induction l with
  | nil => intro s; simp
  | cons p t ih =>
    intro s
    rw [List.foldl_cons, ih, stepSrc3_fst, List.map_cons, List.sum_cons]
    ring

/-- In `sources/variant_3` the accumulator that the checks read carries no
correction: it always equals the uncorrected running sum, and at the end the
raw total. -/
theorem srcV3_checked_accumulator (size : ℕ) : (srcV3state size).1 = rawTotal size := by
  rw [srcV3state, rawTotal, foldPairs_fst]
  norm_num

/- ### Variant 2: partitions and the zero-worker branch -/

theorem partitions_one (size : ℕ) : partitions size 1 = [(0, size)] := by
  simp [partitions, partsFrom, Nat.div_one, Nat.mod_one]

theorem workerLocal_full (size : ℕ) : workerLocal size 0 size = evalV1 size := by
  rw [workerLocal, evalV1, workerPairs, pairs, Nat.sub_zero, ← List.range_eq_range']

theorem evalV2core_one (size : ℕ) : evalV2core size 1 = evalV1 size := by
  rw [evalV2core, partitions_one]
  simp [workerLocal_full]

theorem evalV2fuel_zero_workers (fuel size : ℕ) : evalV2fuel fuel size 0 = none := by
  induction fuel with
  | zero => rfl
  | succ n ih => simp [evalV2fuel, ih]

/- ### The first outer pair -/

/-- For `size ≥ 1` the outer iteration starts with the pair `(0, 0)`. -/
theorem pairs_eq_cons (size : ℕ) (h : 1 ≤ size) :
    pairs size = ((0, 0) : ℕ × ℕ) :: (pairs size).tail := by
  obtain ⟨n, rfl⟩ : ∃ n, size = n + 1 := ⟨size - 1, by omega⟩
  have h0 : (pairs (n + 1)).head? = some (0, 0) := by
    rw [pairs, List.range_succ_eq_map, List.flatMap_cons, List.head?_append, List.head?_map,
      List.head?_cons]
    rfl
  exact List.eq_cons_of_mem_head? (Option.mem_def.2 h0)

/- ### Decomposition of the flattened index space -/

theorem list_map_sum_eq (n : ℕ) (f : ℕ → ℚ) :
    ((List.range n).map f).sum = ∑ i ∈ Finset.range n, f i := by
  induction n with
  | zero => simp
  | succ m ih =>
    rw [List.range_succ, List.map_append, List.sum_append, Finset.sum_range_succ, ih]
    simp

theorem sum_range_shift (a b : ℕ) (f : ℕ → ℚ) :
    ∑ idx ∈ Finset.range (a + b), f idx
      = (∑ idx ∈ Finset.range a, f idx) + ∑ q ∈ Finset.range b, f (a + q) := by
  induction b with
  | zero => simp
  | succ m ih =>
    rw [show a + (m + 1) = (a + m) + 1 from rfl, Finset.sum_range_succ, ih,
      Finset.sum_range_succ, add_assoc]

theorem sum_range_mul_decomp (m n : ℕ) (f : ℕ → ℚ) :
    ∑ idx ∈ Finset.range (m * n), f idx
      = ∑ p ∈ Finset.range m, ∑ q ∈ Finset.range n, f (p * n + q) := by
  induction m with
  | zero => simp
  | succ a ih =>
    rw [Nat.succ_mul, sum_range_shift, ih, Finset.sum_range_succ]

/-- Recovering `(i, j, k)` from the flattened index `i*(size*100) + j*100 + k`
gives back the unit value at those coordinates. -/
theorem flatUnit_coords (size i j k : ℕ) (hi : i < size) (hj : j < size) (hk : k < 100) :
    flatUnit size (i * (size * 100) + (j * 100 + k)) = unitVal i j k size := by
  have hM : 0 < size * 100 := by omega
  have hr : j * 100 + k < size * 100 := by omega
  have hdiv : (i * (size * 100) + (j * 100 + k)) / (size * 100) = i := by
    rw [Nat.mul_comm i (size * 100), Nat.mul_add_div hM, Nat.div_eq_of_lt hr, Nat.add_zero]
  have hmod : (i * (size * 100) + (j * 100 + k)) % (size * 100) = j * 100 + k := by
    rw [Nat.mul_comm i (size * 100), Nat.mul_add_mod, Nat.mod_eq_of_lt hr]
  have hj2 : (j * 100 + k) / 100 = j := by omega
  have hk2 : (i * (size * 100) + (j * 100 + k)) % 100 = k := by
    obtain ⟨m, hm⟩ : ∃ m, i * size = m := ⟨_, rfl⟩
    have h100 : i * (size * 100) = m * 100 := by rw [← hm]; ring
    rw [h100]
    omega
  simp only [flatUnit, unitVal, hdiv, hmod, hj2, hk2]

/-- The serial sum over the flattened index space is the triple sum of the
independent unit values. -/
theorem evalFlat_decomp (size : ℕ) :
    evalFlat size = ∑ i ∈ Finset.range size, ∑ j ∈ Finset.range size,
      ∑ k ∈ Finset.range 100, unitVal i j k size := by
  rw [evalFlat, list_map_sum_eq, show size * size * 100 = size * (size * 100) from by ring,
    sum_range_mul_decomp]
  refine Finset.sum_congr rfl (fun i hi => ?_)
  rw [sum_range_mul_decomp size 100]
  refine Finset.sum_congr rfl (fun j hj => ?_)
  refine Finset.sum_congr rfl (fun k hk => ?_)
  exact flatUnit_coords size i j k (Finset.mem_range.1 hi) (Finset.mem_range.1 hj)
    (Finset.mem_range.1 hk)

/- ### Partition boundaries -/

theorem pstart_zero (size W : ℕ) : pstart size W 0 = 0 := by
  simp [pstart]

theorem pstart_succ (size W t : ℕ) :
    pstart size W (t + 1) = pstart size W t + size / W + (if t < size % W then 1 else 0) := by
  rw [pstart, pstart, Nat.succ_mul]
  split <;> omega

theorem partsFrom_eq (size W : ℕ) : ∀ (n t : ℕ),
    partsFrom (size / W) (size % W) (pstart size W t) t n
      = (List.range n).map (fun d => (pstart size W (t + d), pstart size W (t + d + 1))) := by
  intro n
  induction n with
  | zero => intro t; rfl
  | succ m ih =>
    intro t
    have he : pstart size W t + size / W + (if t < size % W then 1 else 0)
        = pstart size W (t + 1) := (pstart_succ size W t).symm
    simp only [partsFrom]
    rw [he, ih (t + 1), List.range_succ_eq_map, List.map_cons, List.map_map]
    simp [Function.comp, Nat.add_assoc, Nat.add_comm, Nat.add_left_comm]

theorem partitions_eq (size W : ℕ) :
    partitions size W = (List.range W).map (fun t => (pstart size W t, pstart size W (t + 1))) := by
  have h := partsFrom_eq size W W 0
  rw [pstart_zero] at h
  rw [partitions, h]
  simp

theorem pstart_le_succ (size W t : ℕ) : pstart size W t ≤ pstart size W (t + 1) := by
  rw [pstart_succ, Nat.add_assoc]
  exact Nat.le_add_right _ _

theorem pstart_mono (size W : ℕ) : Monotone (pstart size W) :=
  monotone_nat_of_le_succ (pstart_le_succ size W)

theorem pstart_last (size W : ℕ) (hW : 1 ≤ W) : pstart size W W = size := by
  have h1 : size % W < W := Nat.mod_lt _ (by omega)
  rw [pstart, min_eq_right (le_of_lt h1)]
  exact Nat.div_add_mod size W

theorem partition_union (size W : ℕ) (hW : 1 ≤ W) :
    (Finset.range W).biUnion (fun t => Finset.Ico (pstart size W t) (pstart size W (t + 1)))
      = Finset.range size := by
  have key : ∀ n, (Finset.range n).biUnion
      (fun t => Finset.Ico (pstart size W t) (pstart size W (t + 1)))
        = Finset.range (pstart size W n) := by
    intro n
    induction n with
    | zero => simp [pstart_zero]
    | succ m ih =>
      rw [Finset.range_succ, Finset.biUnion_insert, ih, Finset.range_eq_Ico,
        Finset.union_comm, Finset.Ico_union_Ico_eq_Ico (Nat.zero_le _) (pstart_le_succ size W m)]
  rw [key W, pstart_last size W hW]

theorem partition_disjoint (size W : ℕ) (t1 t2 : ℕ) (hne : t1 ≠ t2) :
    Disjoint (Finset.Ico (pstart size W t1) (pstart size W (t1 + 1)))
      (Finset.Ico (pstart size W t2) (pstart size W (t2 + 1))) := by
  rw [Finset.disjoint_left]
  intro x hx1 hx2
  rw [Finset.mem_Ico] at hx1 hx2
  rcases Nat.lt_or_ge t1 t2 with h | h
  · have hle := pstart_mono size W (show t1 + 1 ≤ t2 by omega)
    omega
  · have hle := pstart_mono size W (show t2 + 1 ≤ t1 by omega)
    omega

theorem partition_sizes (size W t1 t2 : ℕ) :
    pstart size W (t1 + 1) - pstart size W t1
      ≤ pstart size W (t2 + 1) - pstart size W t2 + 1 := by
  rw [pstart_succ, pstart_succ]
  split_ifs <;> omega

/- ### Claims -/

/-- C1, counterexample: at `size = 2` under per-pair scope with a single
worker the evaluation does NOT return `1650.0`: a correction fires after the
first pair `(0, 0)` (the accumulator is `0.0` and `trunc(0) = 0` is divisible
by `100000`), so both per-pair variants return `1645.0`, not `1650.0`. -/
theorem c1_end_to_end_counterexample : evalV1 2 ≠ 1650 ∧ evalV3 2 ≠ 1650 := by
  rw [evalV1_two, evalV3_two]
  norm_num

/-- C1, amended: for `size = 2` under per-pair scope with a single worker,
`evaluate` returns `1645.0`: the four pairs `(0,0),(0,1),(1,0),(1,1)` with
denominator `3` contribute `0, 0, 0, (1/3)*4950 = 1650`; the check after pair
`(0, 0)` fires because the accumulator `0` has `floor(0) mod 100000 == 0`,
subtracting `5.0`; no later check fires; the result is `1645.0`. -/
theorem c1_end_to_end : evalV1 2 = 1645 ∧ evalV3 2 = 1645 :=
  ⟨evalV1_two, evalV3_two⟩

/-- C2: the claim (and the code's own comment "Fallback if
hardware_concurrency not detected ... fallback to single-threaded") says the
`W = 0` case must fall back to the serial result, but `variant_2` line 14
calls itself with the same arguments, so with zero workers it never produces
a result (for any amount of fuel the recursion yields `none`), while the
intended fallback — the `W = 1` partitioning — does equal the serial
per-pair evaluation. -/
theorem c2_worker_unavailable :
    (∀ fuel size, evalV2fuel fuel size 0 = none) ∧
    (∀ size : ℕ, evalV2core size 1 = evalV1 size) :=
  ⟨evalV2fuel_zero_workers, evalV2core_one⟩

/-- C3, counterexample: the code's check truncates toward zero
(`static_cast<int>`), which is not the floor for negative non-integers: at
`A = -2/3` (a value the per-subiteration run actually reaches) the code's
check fires and subtracts `5.0`, yet `floor(-2/3) = -1` has
`-1 mod 100000 = 99999 ≠ 0`, so the claimed floor-based check would not
fire. -/
theorem c3_correction_check_counterexample :
    correct (-2/3 : ℚ) = -2/3 - 5 ∧ ¬ ((⌊(-2/3 : ℚ)⌋ % 100000 : ℤ) = 0) := by
  constructor
  · decide
  · decide

/-- C3, amended: the correction check is a pure function of the accumulator
value `A` testing `trunc(A) mod 100000 == 0` (truncation toward zero); for
every nonnegative `A` this agrees with the claimed
`floor(A) mod 100000 == 0` under mathematical mod, and when the test holds
`A` is replaced by `A - 5.0`. -/
theorem c3_correction_check (A : ℚ) (h : 0 ≤ A) :
    correct A = if (⌊A⌋ % 100000 : ℤ) = 0 then A - 5 else A := by
  rw [correct, truncQ_eq_floor_ceil, if_pos h]

theorem c3_correction_check_witness :
    (0 : ℚ) ≤ 2/3 ∧
      correct (2/3 : ℚ) = if ((⌊(2/3 : ℚ)⌋ % 100000 : ℤ) = 0) then (2/3 : ℚ) - 5 else 2/3 :=
  ⟨by norm_num, c3_correction_check (2/3) (by norm_num)⟩

/-- C4: the per-pair-scope variant and the per-subiteration-scope variant are
distinct functions: at the small domain `size = 5` mid-pair corrections fire
under the per-subiteration scope during pair `(1, 1)` that cannot fire under
the per-pair scope, and the final totals differ (`82495` vs `82470`). -/
theorem c4_scope_sensitivity : evalV1 5 ≠ evalSub 5 := by
  rw [evalV1_eq_evalV3, evalV3_five, evalSub_five]
  norm_num

/-- C5: for every `(i, j, size)` with `size ≥ 1`, looping `k` from 0 to 99
and summing `base * k` equals the closed form `base * 4950` with
`base = (i*j)/(size+1)`, exactly in real (rational) arithmetic. -/
theorem c5_closed_form_equivalence (i j size : ℕ) (h : 1 ≤ size) :
    innerSum i j size = base i j size * 4950 :=
  innerSum_eq_closed i j size

theorem c5_closed_form_equivalence_witness :
    1 ≤ 2 ∧ innerSum 1 1 2 = base 1 1 2 * 4950 :=
  ⟨by decide, c5_closed_form_equivalence 1 1 2 (by decide)⟩

/-- C6, counterexample: in `sources/variant_3` at `size = 2` three
corrections are applied (`correctionFactor = -15`), yet the accumulator that
the checks read ends at the raw total `1650` — the corrections are NOT
subtracted from the accumulator the later checks read (each of the three
zero-valued prefixes fires again), and the final value `1635` differs from
the `1645` produced when corrections are applied to the checked accumulator
itself (the per-pair variants). -/
theorem c6_correction_visibility_counterexample :
    (srcV3state 2).1 = 1650 ∧ (srcV3state 2).2 = -15 ∧ srcV3eval 2 = 1635 ∧ evalV3 2 = 1645 := by
  refine ⟨?_, ?_, ?_, evalV3_two⟩
  · rw [srcV3state_two]
  · rw [srcV3state_two]
  · rw [srcV3eval, srcV3state_two]
    norm_num

/-- C6, amended: in the patched variants and `sources/variant_1` each
correction subtracts `5.0` from the accumulator later checks read, but in
`sources/variant_3` the subtractions accumulate in the separate
`correctionFactor`, which no check reads: the checked accumulator always
equals the uncorrected raw total, and the result is that raw total plus the
separately collected corrections. -/
theorem c6_correction_visibility (size : ℕ) :
    (srcV3state size).1 = rawTotal size ∧
    srcV3eval size = rawTotal size + (srcV3state size).2 :=
  ⟨srcV3_checked_accumulator size, by rw [srcV3eval, srcV3_checked_accumulator]⟩

/-- C7: in the data-parallel flattened-index variant each of the
`size*size*100` units computes its value `i*j*k/(size+1)` independently with
the correction applied to that unit's own value only, the final result is
the sum of the per-unit values over all `(i, j, k)`, and it is a different
function from the scoped variants (at `size = 1` it returns `-500`, the
per-pair variant `-5`). -/
theorem c7_flattened_units :
    (∀ size : ℕ, evalFlat size = ∑ i ∈ Finset.range size, ∑ j ∈ Finset.range size,
      ∑ k ∈ Finset.range 100, unitVal i j k size) ∧
    evalFlat 1 ≠ evalV1 1 := by
  refine ⟨evalFlat_decomp, ?_⟩
  rw [(by decide : evalFlat 1 = -500), (by decide : evalV1 1 = -5)]
  norm_num

/-- C8: for every `size ≥ 1` and `W ≥ 1`, the chunked partitioning of
`variant_2` produces exactly `W` contiguous half-open ranges
`[pstart t, pstart (t+1))`, pairwise disjoint, whose union is exactly
`[0, size)`, with lengths differing by at most 1. -/
theorem c8_partition_complete (size W : ℕ) (hs : 1 ≤ size) (hW : 1 ≤ W) :
    (partitions size W).length = W ∧
    partitions size W = (List.range W).map (fun t => (pstart size W t, pstart size W (t + 1))) ∧
    (∀ t1 t2, t1 ≠ t2 →
      Disjoint (Finset.Ico (pstart size W t1) (pstart size W (t1 + 1)))
        (Finset.Ico (pstart size W t2) (pstart size W (t2 + 1)))) ∧
    (Finset.range W).biUnion (fun t => Finset.Ico (pstart size W t) (pstart size W (t + 1)))
      = Finset.range size ∧
    (∀ t1 t2, pstart size W (t1 + 1) - pstart size W t1
      ≤ pstart size W (t2 + 1) - pstart size W t2 + 1) :=
  ⟨by rw [partitions_eq]; simp, partitions_eq size W, partition_disjoint size W,
    partition_union size W hW, fun t1 t2 => partition_sizes size W t1 t2⟩

theorem c8_partition_complete_witness :
    1 ≤ 5 ∧ 1 ≤ 2 ∧
    ((partitions 5 2).length = 2 ∧
      partitions 5 2 = (List.range 2).map (fun t => (pstart 5 2 t, pstart 5 2 (t + 1))) ∧
      (∀ t1 t2, t1 ≠ t2 →
        Disjoint (Finset.Ico (pstart 5 2 t1) (pstart 5 2 (t1 + 1)))
          (Finset.Ico (pstart 5 2 t2) (pstart 5 2 (t2 + 1)))) ∧
      (Finset.range 2).biUnion (fun t => Finset.Ico (pstart 5 2 t) (pstart 5 2 (t + 1)))
        = Finset.range 5 ∧
      (∀ t1 t2, pstart 5 2 (t1 + 1) - pstart 5 2 t1
        ≤ pstart 5 2 (t2 + 1) - pstart 5 2 t2 + 1)) :=
  ⟨by decide, by decide, c8_partition_complete 5 2 (by decide) (by decide)⟩

/-- C9, counterexample: for `size = -1` (and likewise `size = 0`) the code
does not fail fast with any `InvalidDomain` error — the `double`-valued
function has no error path at all; it executes zero-length loops and silently
returns `0.0`. -/
theorem c9_invalid_domain_counterexample :
    evalV1Z (-1) = 0 ∧ evalV3Z (-1) = 0 ∧ evalV1Z 0 = 0 ∧ evalV3Z 0 = 0 :=
  ⟨rfl, rfl, rfl, rfl⟩

/-- C9, amended: for every `size ≤ 0`, `evaluate` executes zero-length loops
and silently returns `0.0`; no `InvalidDomain` error is raised (the code has
no error path). -/
theorem c9_invalid_domain (size : ℤ) (h : size ≤ 0) :
    evalV1Z size = 0 ∧ evalV3Z size = 0 := by
  have ht : size.toNat = 0 := Int.toNat_of_nonpos h
  rw [evalV1Z, evalV3Z, ht]
  exact ⟨rfl, rfl⟩

theorem c9_invalid_domain_witness :
    (-3 : ℤ) ≤ 0 ∧ (evalV1Z (-3) = 0 ∧ evalV3Z (-3) = 0) :=
  ⟨by decide, c9_invalid_domain (-3) (by decide)⟩

/-- C10: for every `size ≥ 1`, in both serial per-pair variants the first
pair is `(0, 0)`, it contributes `0` (so the accumulator is `0.0`), the check
`trunc(0) mod 100000 == 0` holds, the accumulator becomes `-5.0`, and the
rest of the evaluation proceeds from `-5.0` — at least one correction is
applied before any nonzero contribution arrives. -/
theorem c10_first_pair_correction (size : ℕ) (h : 1 ≤ size) :
    innerSum 0 0 size = 0 ∧
    truncQ 0 % 100000 = 0 ∧
    stepV1 size 0 (0, 0) = -5 ∧
    stepV3 size 0 (0, 0) = -5 ∧
    (pairs size).head? = some (0, 0) ∧
    evalV1 size = (pairs size).tail.foldl (stepV1 size) (-5) ∧
    evalV3 size = (pairs size).tail.foldl (stepV3 size) (-5) := by
  have hbase : base 0 0 size = 0 := by simp [base]
  have hinner : innerSum 0 0 size = 0 := by rw [innerSum_eq_closed, hbase, zero_mul]
  have hstep1 : stepV1 size 0 (0, 0) = -5 := by
    show correct (0 + innerSum 0 0 size) = -5
    rw [hinner]
    decide
  have hstep3 : stepV3 size 0 (0, 0) = -5 := by
    show correct (0 + base 0 0 size * 4950) = -5
    rw [hbase]
    decide
  have hcons := pairs_eq_cons size h
  refine ⟨hinner, by decide, hstep1, hstep3, ?_, ?_, ?_⟩
  · rw [hcons]
    rfl
  · conv_lhs => rw [evalV1, hcons]
    rw [List.foldl_cons, hstep1]
  · conv_lhs => rw [evalV3, hcons]
    rw [List.foldl_cons, hstep3]

theorem c10_first_pair_correction_witness :
    1 ≤ 1 ∧
    (innerSum 0 0 1 = 0 ∧
      truncQ 0 % 100000 = 0 ∧
      stepV1 1 0 (0, 0) = -5 ∧
      stepV3 1 0 (0, 0) = -5 ∧
      (pairs 1).head? = some (0, 0) ∧
      evalV1 1 = (pairs 1).tail.foldl (stepV1 1) (-5) ∧
      evalV3 1 = (pairs 1).tail.foldl (stepV3 1) (-5)) :=
  ⟨le_refl 1, c10_first_pair_correction 1 (le_refl 1)⟩

end HeavyComputation
